import Mathlib

/-!
Verification development for the `vaporider-sku-map` CSV reconciliation scripts.

The Python sources are shallowly embedded as executable Lean functions:
strings are `String` (lists of unicode scalar `Char`s, like Python `str`),
`csv.DictReader` rows become structures of string fields (a missing column is
the empty string, matching `row.get(k, '')`), Python `dict`s become
insertion-ordered association lists with in-place update on key collision,
and each `re.sub` call of the sources is translated to a dedicated
left-to-right, leftmost-match, non-overlapping scan over the character list.
`str.lower`/`str.strip` are modelled on the ASCII range actually exercised by
the data (`lowerChar`, `pyStrip`).
-/

/-! ## Character-level model -/

theorem char_toNat_ofNat_of_lt (n : Nat) (h : n < 55296) : (Char.ofNat n).toNat = n := by
  rw [Char.ofNat, dif_pos (Or.inl h)]
  rfl

/-- ASCII model of Python `str.lower` applied to one character. -/
def lowerChar (c : Char) : Char :=
  if 65 ≤ c.toNat ∧ c.toNat ≤ 90 then Char.ofNat (c.toNat + 32) else c

theorem lowerChar_idem (c : Char) : lowerChar (lowerChar c) = lowerChar c := by
  unfold lowerChar
  by_cases h : 65 ≤ c.toNat ∧ c.toNat ≤ 90
  · rw [if_pos h]
    have hv : (Char.ofNat (c.toNat + 32)).toNat = c.toNat + 32 :=
      char_toNat_ofNat_of_lt _ (by omega)
    rw [if_neg (by omega)]
  · rw [if_neg h, if_neg h]

/-- Whitespace characters recognised by `\s` and `str.strip` (ASCII range). -/
def isPyWs (c : Char) : Bool :=
  c == ' ' || c == '\t' || c == '\n' || c == '\r' || c == '\x0b' || c == '\x0c'

/-- Character class of `csv_mapper.normalize_string`:
`[\s\-–,\.\"\(\)!&:+]` — whitespace, hyphen, the Unicode en-dash U+2013,
comma, period, double quote, parentheses, bang, ampersand, colon, plus. -/
def isStripCsv (c : Char) : Bool :=
  isPyWs c ||
  c == '-' || c == '–' || c == ',' || c == '.' || c == '"' || c == '(' || c == ')' ||
  c == '!' || c == '&' || c == ':' || c == '+'

/-- Character class of `debug_mapper.normalize_string`:
the file's class literal holds the three mojibake characters
U+00E2, U+20AC, U+201C (a double-encoded en-dash) instead of U+2013,
and has no `+`. -/
def isStripDbg (c : Char) : Bool :=
  isPyWs c ||
  c == '-' || c == 'â' || c == '€' || c == '“' || c == ',' || c == '.' || c == '"' ||
  c == '(' || c == ')' || c == '!' || c == '&' || c == ':'

/-- Python `text.lower()` followed by deleting every character of class `p`
(the `re.sub(r'[...]', '', text.lower())` stage shared by both normalizers). -/
def stripLower (p : Char → Bool) (l : List Char) : List Char :=
  (l.map lowerChar).filter (fun c => !(p c))

theorem mem_stripLower {p : Char → Bool} {x : Char} {l : List Char}
    (h : x ∈ stripLower p l) : lowerChar x = x ∧ p x = false := by
  unfold stripLower at h
  rw [List.mem_filter] at h
  obtain ⟨hm, hp⟩ := h
  rw [List.mem_map] at hm
  obtain ⟨y, _, rfl⟩ := hm
  exact ⟨lowerChar_idem y, by simpa using hp⟩

theorem stripLower_fixed {p : Char → Bool} {l : List Char}
    (h : ∀ x ∈ l, lowerChar x = x ∧ p x = false) : stripLower p l = l := by
  unfold stripLower
  have hmap : l.map lowerChar = l := by
    induction l with
    | nil => rfl
    | cons a t ih =>
      simp only [List.map_cons]
      rw [(h a (by simp)).1, ih (fun x hx => h x (by simp [hx]))]
  rw [hmap]
  rw [List.filter_eq_self]
  intro a ha
  simp [(h a ha).2]

theorem stripLower_idem (p : Char → Bool) (l : List Char) :
    stripLower p (stripLower p l) = stripLower p l :=
  stripLower_fixed (fun _ hx => mem_stripLower hx)

/-- Python `str.strip()`: drop leading and trailing whitespace. -/
def pyStrip (s : String) : String :=
  ⟨(((s.data.dropWhile isPyWs).reverse.dropWhile isPyWs).reverse : List Char)⟩

/-- Test `leadsWith p l`: the list `l` starts with `p` (Python `startswith`). -/
def leadsWith : List Char → List Char → Bool
  | [], _ => true
  | _ :: _, [] => false
  | p :: ps, c :: cs => p == c && leadsWith ps cs

/-- Test `hasSub p l`: `p` occurs as a contiguous sublist of `l`
(Python `p in l` on strings). -/
def hasSub (p : List Char) : List Char → Bool
  | [] => leadsWith p []
  | c :: rest => leadsWith p (c :: rest) || hasSub p rest

/-! ## The `re.sub` rewrites of the two normalizers

Each function is the exact leftmost-match, non-overlapping, left-to-right
scan that CPython's `re.sub` performs for the corresponding pattern. -/

/-- Scan for `re.sub(r'(\d+)puffs?', r'\1', s)`: delete `puff`/`puffs`
(`s` greedy) when the preceding character is a digit.  A match of the Python
pattern starts at a maximal digit run followed by `puff`, keeps the digits
(group 1) and resumes after the match, which is exactly this scan. -/
def puffsSub : List Char → List Char
  | [] => []
  | c :: 'p' :: 'u' :: 'f' :: 'f' :: 's' :: r =>
    if c.isDigit then c :: puffsSub r
    else c :: 'p' :: 'u' :: 'f' :: 'f' :: 's' :: puffsSub r
  | c :: 'p' :: 'u' :: 'f' :: 'f' :: r =>
    if c.isDigit then c :: puffsSub r
    else c :: 'p' :: 'u' :: 'f' :: 'f' :: puffsSub r
  | c :: rest => c :: puffsSub rest

/-- Scan for `re.sub(r'kit|pod', '', s)`. -/
def kitpodSub : List Char → List Char
  | [] => []
  | 'k' :: 'i' :: 't' :: rest => kitpodSub rest
  | 'p' :: 'o' :: 'd' :: rest => kitpodSub rest
  | c :: rest => c :: kitpodSub rest

/-- Fuelled scan for `re.sub` with a literal (regex-free) pattern `pat` and
literal replacement `rep`: leftmost match, non-overlapping, the replacement
is not rescanned.  The fuel only bounds the recursion and callers supply the
input length, which always suffices for a non-empty pattern. -/
def litSubF (pat rep : List Char) : Nat → List Char → List Char
  | 0, l => l
  | _ + 1, [] => []
  | fuel + 1, c :: rest =>
    if leadsWith pat (c :: rest) then rep ++ litSubF pat rep fuel ((c :: rest).drop pat.length)
    else c :: litSubF pat rep fuel rest

/-- Scan for `re.sub(r'disposabledevice', 'disposable', s)`. -/
def dispDevSub (l : List Char) : List Char :=
  litSubF "disposabledevice".data "disposable".data l.length l

/-- Scan for `re.sub(r'ecigdevice', 'ecig', s)`. -/
def ecigDevSub (l : List Char) : List Char :=
  litSubF "ecigdevice".data "ecig".data l.length l

/-- Pending-digit-run flush used by `packGo`. -/
def packFlush : Option (List Char) → List Char
  | none => []
  | some ds => ds.reverse

/-- Fuelled scan for `re.sub(r'\d+pack', '', s)`.  The second argument is the
pending maximal digit run read so far (in reverse), `none` when not inside a
run; when the run is immediately followed by `pack` both are deleted.  The
fuel only bounds the recursion and `packSub` supplies enough. -/
def packGoF : Nat → Option (List Char) → List Char → List Char
  | 0, ds, l => packFlush ds ++ l
  | _ + 1, ds, [] => packFlush ds
  | fuel + 1, ds, c :: rest =>
    if ds.isSome && leadsWith ['p', 'a', 'c', 'k'] (c :: rest) then
      packGoF fuel none (rest.drop 3)
    else if c.isDigit then packGoF fuel (some (c :: ds.getD [])) rest
    else packFlush ds ++ c :: packGoF fuel none rest

def packSub (l : List Char) : List Char := packGoF l.length none l

/-- ASCII letter test, the `[a-zA-Z]` class. -/
def isAsciiAlpha (c : Char) : Bool :=
  ('a' ≤ c && c ≤ 'z') || ('A' ≤ c && c ≤ 'Z')

/-- First success of `f` trying arguments from `k` downwards (the greedy,
backtracking order in which a regex engine tries the length of a `*` star). -/
def downFirst (f : Nat → Option Nat) : Nat → Option Nat
  | 0 => f 0
  | k + 1 =>
    match f (k + 1) with
    | some v => some v
    | none => downFirst f k

/-- Match attempt for the tail of `poweredby[a-zA-Z]*vape[a-zA-Z]*co\.?`
after the literal `poweredby`: returns the number of consumed characters of
`r`, trying the two greedy letter stars longest-first with backtracking. -/
def pbMatchTail (r : List Char) : Option Nat :=
  downFirst (fun k =>
    if leadsWith ['v', 'a', 'p', 'e'] (r.drop k) then
      downFirst (fun j =>
        if leadsWith ['c', 'o'] ((r.drop (k + 4)).drop j) then
          some (k + 4 + j + 2 +
            (if leadsWith ['.'] ((r.drop (k + 4)).drop (j + 2)) then 1 else 0))
        else none) ((r.drop (k + 4)).takeWhile isAsciiAlpha).length
    else none) (r.takeWhile isAsciiAlpha).length

/-- Fuelled scan for `re.sub(r'poweredby[a-zA-Z]*vape[a-zA-Z]*co\.?', '', s)`;
the fuel only bounds the recursion and `poweredbySub` supplies enough. -/
def pbSubF : Nat → List Char → List Char
  | 0, l => l
  | _ + 1, [] => []
  | fuel + 1, c :: rest =>
    if leadsWith ['p', 'o', 'w', 'e', 'r', 'e', 'd', 'b', 'y'] (c :: rest) then
      match pbMatchTail (rest.drop 8) with
      | some n => pbSubF fuel ((rest.drop 8).drop n)
      | none => c :: pbSubF fuel rest
    else c :: pbSubF fuel rest

def poweredbySub (l : List Char) : List Char := pbSubF l.length l

/-! ## The two normalizers -/

namespace Csv

/-- Faithful embedding of `csv_mapper.normalize_string`: lower-case, delete
the punctuation class, then the digits-`puff(s)` rewrite. -/
def normalize_string (text : String) : String :=
  if text = "" then ""
  else ⟨puffsSub (stripLower isStripCsv text.data)⟩

end Csv

namespace Dbg

/-- Faithful embedding of `debug_mapper.normalize_string`: lower-case, delete
the punctuation class, then in order the powered-by, disposable-device,
ecig-device, digits-`puff(s)`, pack and kit/pod rewrites. -/
def normalize_string (text : String) : String :=
  if text = "" then ""
  else
    ⟨kitpodSub (packSub (puffsSub (ecigDevSub (dispDevSub
      (poweredbySub (stripLower isStripDbg text.data))))))⟩

end Dbg


/-! ## Data model -/

/-- Master-catalog record as stored in the lookup tables of `load_sheet1`
(`'internal_reference'` and `'barcode'` fields). -/
structure MRec where
  internal_reference : String
  barcode : String
deriving DecidableEq

/-- Master-catalog CSV row (the columns `load_sheet1` reads). -/
structure S1Row where
  name : String
  internal_reference : String
  barcode : String
deriving DecidableEq

/-- Storefront variant row (the columns `find_match`, `build_option_suffix`
and `fill_missing_titles` read; a missing column reads as `""`). -/
structure VariantRow where
  handle : String
  title : String
  option1Name : String
  option1Value : String
  option2Name : String
  option2Value : String
  option3Name : String
  option3Value : String
deriving DecidableEq

/-- Python `dict` lookup on an insertion-ordered association list. -/
def dlookup {α : Type} : List (String × α) → String → Option α
  | [], _ => none
  | (k, v) :: rest, key => if k = key then some v else dlookup rest key

/-- Python `dict` assignment: update in place on an existing key (keeping its
insertion position), otherwise append. -/
def dinsert {α : Type} : List (String × α) → String → α → List (String × α)
  | [], k, v => [(k, v)]
  | (k', v') :: rest, k, v =>
    if k' = k then (k, v) :: rest else (k', v') :: dinsert rest k v

theorem dlookup_dinsert {α : Type} (d : List (String × α)) (k key : String) (v : α) :
    dlookup (dinsert d k v) key = if key = k then some v else dlookup d key := by
  induction d with
  | nil =>
    rcases eq_or_ne key k with h | h
    · subst h; simp [dinsert, dlookup]
    · simp [dinsert, dlookup, h, Ne.symm h]
  | cons p rest ih =>
    obtain ⟨k', v'⟩ := p
    rcases eq_or_ne k' k with hk | hk
    · subst hk
      rcases eq_or_ne key k' with h | h
      · subst h; simp [dinsert, dlookup]
      · simp [dinsert, dlookup, h, Ne.symm h]
    · rcases eq_or_ne k' key with h | h
      · subst h
        simp [dinsert, dlookup, hk]
      · simp [dinsert, dlookup, hk, h, ih]

/-! ## Key building (`build_option_suffix` and the string rewrites of
`find_match`) -/

/-- Faithful embedding of `csv_mapper.build_option_suffix`: collect the three
stripped option values in slot order, skipping empty values and the
`Title`/`Default Title` sentinel, then dash-join with a leading dash. -/
def build_option_suffix (row : VariantRow) : String :=
  let slot := fun (nm vl : String) (acc : List String) =>
    if pyStrip vl ≠ "" then
      (if pyStrip nm = "Title" ∧ pyStrip vl = "Default Title" then acc
       else pyStrip vl :: acc)
    else acc
  let options := slot row.option1Name row.option1Value
    (slot row.option2Name row.option2Value (slot row.option3Name row.option3Value []))
  if options = [] then "" else "-" ++ String.intercalate "-" options

/-- Python `s.replace('-', ' - ')`. -/
def dashSpaceL : List Char → List Char
  | [] => []
  | '-' :: r => ' ' :: '-' :: ' ' :: dashSpaceL r
  | c :: r => c :: dashSpaceL r

def dashSpace (s : String) : String := ⟨dashSpaceL s.data⟩

/-- Python `s.replace(' Puffs', '')` (capital P, as in `find_match`). -/
def puffsWordSub : List Char → List Char
  | ' ' :: 'P' :: 'u' :: 'f' :: 'f' :: 's' :: rest => puffsWordSub rest
  | c :: rest => c :: puffsWordSub rest
  | [] => []

def puffsWordRemove (s : String) : String := ⟨puffsWordSub s.data⟩

/-- Python `s.replace('–', '-')`: en-dash to plain hyphen. -/
def enDashHyphen (s : String) : String :=
  ⟨s.data.map (fun c => if c = '–' then '-' else c)⟩

/-- Python `s.replace('-', ' ')` applied to a handle. -/
def dashToSpace (s : String) : String :=
  ⟨s.data.map (fun c => if c = '-' then ' ' else c)⟩

/-! ## The match resolver -/

/-- Faithful embedding of `csv_mapper.find_match`: the nested early-return
conditionals of the source, with Python's `return a, b` tuple as
`some (record, matchedName)` and the final fall-through as `none`. -/
def find_match (row : VariantRow) (sheet1_data : List (String × MRec))
    (sheet1_normalized : List (String × MRec)) : Option (MRec × String) :=
  let titleRes : Option (MRec × String) :=
    (let title := pyStrip row.title
     if title ≠ "" then
       let option_suffix := build_option_suffix row
       let direct_match_name := title ++ option_suffix
       match dlookup sheet1_data direct_match_name with
       | some v => some (v, direct_match_name)
       | none =>
         let spacedRes : Option (MRec × String) :=
           if option_suffix ≠ "" then
             let direct_match_name_spaced := title ++ dashSpace option_suffix
             match dlookup sheet1_data direct_match_name_spaced with
             | some v => some (v, direct_match_name_spaced)
             | none => none
           else none
         match spacedRes with
         | some r => some r
         | none =>
           if option_suffix ≠ "" ∧ hasSub " Puffs".data title.data then
             let title_without_puffs := enDashHyphen (puffsWordRemove title)
             let puffs_match_name := title_without_puffs ++ option_suffix
             match dlookup sheet1_data puffs_match_name with
             | some v => some (v, puffs_match_name)
             | none =>
               let puffs_match_name_spaced := title_without_puffs ++ dashSpace option_suffix
               match dlookup sheet1_data puffs_match_name_spaced with
               | some v => some (v, puffs_match_name_spaced)
               | none => none
           else none
     else none)
  match titleRes with
  | some r => some r
  | none =>
    let handle := pyStrip row.handle
    if handle ≠ "" then
      let option_suffix := build_option_suffix row
      let handle_match_name := dashToSpace handle ++ option_suffix
      let normalized_handle_name := Csv.normalize_string handle_match_name
      match dlookup sheet1_normalized normalized_handle_name with
      | some v =>
        match sheet1_data.find?
            (fun p => Csv.normalize_string p.1 == normalized_handle_name) with
        | some p => some (v, p.1)
        | none => none
      | none => none
    else none

/-! ## Specification-level resolver (the Key Builder candidate list of
spec §4.3 walked in priority order with first-hit semantics, §4.5) -/

/-- Candidate keys tried against the exact-name table, in the priority order
of the Key Builder. -/
def exactCandidates (row : VariantRow) : List String :=
  let title := pyStrip row.title
  if title = "" then []
  else
    let sfx := build_option_suffix row
    [title ++ sfx]
    ++ (if sfx ≠ "" then [title ++ dashSpace sfx] else [])
    ++ (if sfx ≠ "" ∧ hasSub " Puffs".data title.data then
          [enDashHyphen (puffsWordRemove title) ++ sfx,
           enDashHyphen (puffsWordRemove title) ++ dashSpace sfx]
        else [])

/-- The normalized handle-fallback candidate key, when a handle is present. -/
def fallbackCandidate (row : VariantRow) : Option String :=
  let handle := pyStrip row.handle
  if handle = "" then none
  else some (Csv.normalize_string (dashToSpace handle ++ build_option_suffix row))

/-- Walk a candidate list in order and return the first hit together with the
candidate that hit. -/
def firstHit : List String → List (String × MRec) → Option (MRec × String)
  | [], _ => none
  | k :: ks, d =>
    match dlookup d k with
    | some v => some (v, k)
    | none => firstHit ks d

/-- Resolver written as the spec describes it: try the ordered exact
candidates first-hit against the exact table, then the normalized fallback
against the normalized table, answering the record found there paired with
the first master name whose normalization equals the fallback key. -/
def resolveSpec (row : VariantRow) (d1 dn : List (String × MRec)) :
    Option (MRec × String) :=
  match firstHit (exactCandidates row) d1 with
  | some r => some r
  | none =>
    match fallbackCandidate row with
    | none => none
    | some k5 =>
      match dlookup dn k5 with
      | none => none
      | some v =>
        match d1.find? (fun p => Csv.normalize_string p.1 == k5) with
        | some p => some (v, p.1)
        | none => none

/-! ## Master Index construction (`load_sheet1`) -/

/-- One entry of the `duplicate_skus` report list (two entries per detected
duplicate: the first occurrence and the current occurrence). -/
structure DupEntry where
  sku : String
  name : String
  row : Nat
  duplicate_of : String
deriving DecidableEq

/-- The four accumulators of `load_sheet1` (the `sheet1_full_data` map only
feeds report output and is not modelled). -/
structure LoadState where
  sheet1_data : List (String × MRec)
  sheet1_normalized : List (String × MRec)
  sku_tracker : List (String × (String × Nat))
  duplicate_skus : List DupEntry
deriving DecidableEq

/-- The SKU-duplicate tracking block of `load_sheet1`'s loop body (only
reached for a non-empty name): record a duplicate pair when the non-empty
identifier was seen before, otherwise remember its first occurrence. -/
def trackerStep (row_num : Nat) (st : LoadState) (name sku : String) : LoadState :=
  if sku ≠ "" then
    match dlookup st.sku_tracker sku with
    | some fr =>
      { st with duplicate_skus := st.duplicate_skus ++
          [⟨sku, fr.1, fr.2, "First occurrence"⟩,
           ⟨sku, name, row_num, "Duplicate of row " ++ Nat.repr fr.2⟩] }
    | none =>
      { st with sku_tracker := dinsert st.sku_tracker sku (name, row_num) }
  else st

/-- Processing of a single master row by `load_sheet1`'s loop body, with
`row_num` the 2-based CSV position. -/
def loadStep (row_num : Nat) (st : LoadState) (r : S1Row) : LoadState :=
  let name := pyStrip r.name
  let sku := pyStrip r.internal_reference
  if name = "" then st
  else
    let st1 := trackerStep row_num st name sku
    { st1 with
        sheet1_data := dinsert st1.sheet1_data name ⟨sku, r.barcode⟩,
        sheet1_normalized :=
          dinsert st1.sheet1_normalized (Csv.normalize_string name) ⟨sku, r.barcode⟩ }

def loadAux : Nat → LoadState → List S1Row → LoadState
  | _, st, [] => st
  | n, st, r :: rest => loadAux (n + 1) (loadStep n st r) rest

/-- Faithful embedding of `csv_mapper.load_sheet1` (rows enumerated from 2). -/
def load_sheet1 (rows : List S1Row) : LoadState :=
  loadAux 2 ⟨[], [], [], []⟩ rows

/-! ## Title filling (`fill_missing_titles`) -/

/-- First pass of `fill_missing_titles`: record the first non-empty stripped
title for each non-empty stripped handle. -/
def htStep (acc : List (String × String)) (r : VariantRow) : List (String × String) :=
  let handle := pyStrip r.handle
  let title := pyStrip r.title
  if handle ≠ "" ∧ title ≠ "" ∧ dlookup acc handle = none then dinsert acc handle title
  else acc

def handleTitles (rows : List VariantRow) : List (String × String) :=
  rows.foldl htStep []

/-- Faithful embedding of `csv_mapper.fill_missing_titles`: the second pass
assigns the collected title to every row with a handle and an empty title. -/
def fill_missing_titles (rows : List VariantRow) : List VariantRow :=
  let ht := handleTitles rows
  rows.map (fun r =>
    if pyStrip r.handle ≠ "" ∧ pyStrip r.title = "" then
      match dlookup ht (pyStrip r.handle) with
      | some t => { r with title := t }
      | none => r
    else r)

/-! ## Two-way list comparison (`compare_missing_sku_lists`) -/

/-- Row of a missing-SKU report file (columns read by the loaders). -/
structure CmpRow where
  sku : String
  product_name : String
  barcode : String
deriving DecidableEq

/-- Python `set` modelled as a duplicate-free list (membership is what
matters; report order always goes through `sorted`). -/
def pySetInsert (s : List String) (k : String) : List String :=
  if k ∈ s then s else s ++ [k]

/-- Faithful embedding of `load_missing_skus_from_csv`: the set of non-empty
stripped SKUs. -/
def load_missing_skus (rows : List CmpRow) : List String :=
  rows.foldl (fun s r =>
    let sku := pyStrip r.sku
    if sku = "" then s else pySetInsert s sku) []

/-- Lexicographic less-or-equal on character lists by code point, the order
Python's `sorted` uses on strings (agrees with `String`'s linear order). -/
def lexLe : List Char → List Char → Bool
  | [], _ => true
  | _ :: _, [] => false
  | a :: as, b :: bs => if a < b then true else if b < a then false else lexLe as bs

/-- Insertion step of `insSort`. -/
def insSorted (x : String) : List String → List String
  | [] => [x]
  | y :: r => if lexLe x.data y.data then x :: y :: r else y :: insSorted x r

/-- Python `sorted` on a list of strings (insertion sort; Python's sort is
stable, which coincides on the duplicate-free sets compared here). -/
def insSort : List String → List String
  | [] => []
  | x :: r => insSorted x (insSort r)

/-- Python set difference `a - b` on the list model. -/
def setDiff (a b : List String) : List String :=
  a.filter (fun k => decide (k ∉ b))

/-- Python set intersection `a & b` on the list model. -/
def setInter (a b : List String) : List String :=
  a.filter (fun k => decide (k ∈ b))

/-- Faithful embedding of `load_missing_skus_with_details` (name and barcode
per SKU, later rows overwriting earlier ones). -/
def load_missing_sku_details (rows : List CmpRow) : List (String × (String × String)) :=
  rows.foldl (fun d r =>
    let sku := pyStrip r.sku
    if sku = "" then d else dinsert d sku (pyStrip r.product_name, pyStrip r.barcode)) []

/-- Result of the comparison: the three sets and the three report key lists
as written (sorted, keeping keys present in the details map). -/
structure CompareResult where
  only_in_first : List String
  only_in_second : List String
  common_skus : List String
  report_first : List String
  report_second : List String
  report_both : List String
deriving DecidableEq

/-- Core of `compare_missing_sku_lists`: set differences and intersection of
the two loaded SKU sets, and the three report files' key sequences
(`for sku in sorted(...) : if sku in details : writerow`). -/
def compare_missing_sku_lists (s1 s2 : List String)
    (det1 det2 : List (String × (String × String))) : CompareResult :=
  let only1 := setDiff s1 s2
  let only2 := setDiff s2 s1
  let common := setInter s1 s2
  { only_in_first := only1
    only_in_second := only2
    common_skus := common
    report_first := (insSort only1).filter (fun k => (dlookup det1 k).isSome)
    report_second := (insSort only2).filter (fun k => (dlookup det2 k).isSome)
    report_both := (insSort common).filter (fun k => (dlookup det1 k).isSome) }

/-! ## Character-preservation lemmas for the rewrite scans

Every rewrite only deletes characters or re-emits characters that occur in
the matched part of its input, so the character set can only shrink. -/

theorem puffsSub_sub {x : Char} : ∀ {l : List Char}, x ∈ puffsSub l → x ∈ l := by
  intro l h
  induction l using puffsSub.induct <;> simp_all [puffsSub] <;> tauto

theorem kitpodSub_sub {x : Char} : ∀ {l : List Char}, x ∈ kitpodSub l → x ∈ l := by
  intro l h
  induction l using kitpodSub.induct <;> simp_all [kitpodSub] <;> tauto

theorem litSubF_sub {pat rep : List Char} {x : Char} :
    ∀ (fuel : Nat) {l : List Char}, x ∈ litSubF pat rep fuel l → x ∈ l ∨ x ∈ rep := by
  intro fuel
  induction fuel with
  | zero =>
    intro l h
    rw [litSubF] at h
    exact Or.inl h
  | succ n ih =>
    intro l h
    match l with
    | [] => simp [litSubF] at h
    | c :: rest =>
      rw [litSubF] at h
      split at h
      · rcases List.mem_append.mp h with h | h
        · exact Or.inr h
        · rcases ih h with h | h
          · exact Or.inl (List.mem_of_mem_drop h)
          · exact Or.inr h
      · rcases List.mem_cons.mp h with h | h
        · exact Or.inl (by simp [h])
        · rcases ih h with h | h
          · exact Or.inl (List.mem_cons_of_mem _ h)
          · exact Or.inr h

theorem dispDevSub_sub {x : Char} {l : List Char} (h : x ∈ dispDevSub l) :
    x ∈ l ∨ x ∈ "disposable".data :=
  litSubF_sub l.length h

theorem ecigDevSub_sub {x : Char} {l : List Char} (h : x ∈ ecigDevSub l) :
    x ∈ l ∨ x ∈ "ecig".data :=
  litSubF_sub l.length h

theorem packFlush_eq (ds : Option (List Char)) : packFlush ds = (ds.getD []).reverse := by
  cases ds <;> rfl

theorem packGoF_sub {x : Char} :
    ∀ (fuel : Nat) {ds : Option (List Char)} {l : List Char}, x ∈ packGoF fuel ds l →
      x ∈ (ds.getD []).reverse ∨ x ∈ l := by
  intro fuel
  induction fuel with
  | zero =>
    intro ds l h
    rw [packGoF, packFlush_eq] at h
    exact List.mem_append.mp h
  | succ n ih =>
    intro ds l h
    match l with
    | [] =>
      rw [packGoF, packFlush_eq] at h
      exact Or.inl h
    | c :: rest =>
      rw [packGoF] at h
      split at h
      · rcases ih h with h | h
        · simp at h
        · exact Or.inr (List.mem_cons_of_mem _ (List.mem_of_mem_drop h))
      · split at h
        · rcases ih h with h | h
          · simp only [Option.getD_some, List.mem_reverse, List.mem_cons] at h
            rcases h with h | h
            · simp [h]
            · cases ds with
              | none => simp at h
              | some d => exact Or.inl (by simpa using h)
          · simp [h]
        · rw [packFlush_eq] at h
          rcases List.mem_append.mp h with h | h
          · exact Or.inl h
          · rcases List.mem_cons.mp h with h | h
            · simp [h]
            · rcases ih h with h | h
              · simp at h
              · simp [h]

theorem packSub_sub {x : Char} {l : List Char} (h : x ∈ packSub l) : x ∈ l := by
  rcases packGoF_sub l.length h with h | h
  · simp at h
  · exact h

theorem pbSubF_sub {x : Char} : ∀ (fuel : Nat) {l : List Char}, x ∈ pbSubF fuel l → x ∈ l := by
  intro fuel
  induction fuel with
  | zero =>
    intro l h
    simpa [pbSubF] using h
  | succ n ih =>
    intro l h
    match l with
    | [] => simpa [pbSubF] using h
    | c :: rest =>
      rw [pbSubF] at h
      split at h
      · split at h
        · exact List.mem_cons_of_mem _ (List.mem_of_mem_drop (List.mem_of_mem_drop (ih h)))
        · rcases List.mem_cons.mp h with h | h
          · simp [h]
          · exact List.mem_cons_of_mem _ (ih h)
      · rcases List.mem_cons.mp h with h | h
        · simp [h]
        · exact List.mem_cons_of_mem _ (ih h)

theorem poweredbySub_sub {x : Char} {l : List Char} (h : x ∈ poweredbySub l) : x ∈ l :=
  pbSubF_sub l.length h

/-- The composite domain-rewrite stage of `debug_mapper.normalize_string`. -/
def dbgChain (l : List Char) : List Char :=
  kitpodSub (packSub (puffsSub (ecigDevSub (dispDevSub (poweredbySub l)))))

theorem dbgChain_sub {x : Char} {l : List Char} (h : x ∈ dbgChain l) :
    x ∈ l ∨ x ∈ "disposable".data ∨ x ∈ "ecig".data := by
  have h1 := puffsSub_sub (packSub_sub (kitpodSub_sub h))
  rcases ecigDevSub_sub h1 with h2 | h2
  · rcases dispDevSub_sub h2 with h3 | h3
    · exact Or.inl (poweredbySub_sub h3)
    · exact Or.inr (Or.inl h3)
  · exact Or.inr (Or.inr h2)

/-! ## Both normalizers as chain-after-strip, and the second pass -/

theorem string_mk_eq_iff (a b : List Char) : (⟨a⟩ : String) = ⟨b⟩ ↔ a = b :=
  ⟨fun h => congrArg String.data h, fun h => congrArg String.mk h⟩

theorem csv_normalize_eq (x : String) :
    Csv.normalize_string x = ⟨puffsSub (stripLower isStripCsv x.data)⟩ := by
  unfold Csv.normalize_string
  split
  · rename_i hx
    subst hx
    rfl
  · rfl

theorem dbg_normalize_eq (x : String) :
    Dbg.normalize_string x = ⟨dbgChain (stripLower isStripDbg x.data)⟩ := by
  unfold Dbg.normalize_string dbgChain
  split
  · rename_i hx
    subst hx
    rfl
  · rfl

theorem csv_normalize_normalize (x : String) :
    Csv.normalize_string (Csv.normalize_string x) =
      ⟨puffsSub (puffsSub (stripLower isStripCsv x.data))⟩ := by
  rw [csv_normalize_eq x, csv_normalize_eq]
  have hfix : stripLower isStripCsv (puffsSub (stripLower isStripCsv x.data)) =
      puffsSub (stripLower isStripCsv x.data) :=
    stripLower_fixed (fun c hc => mem_stripLower (puffsSub_sub hc))
  exact congrArg _ (congrArg _ hfix)

theorem dbg_normalize_normalize (x : String) :
    Dbg.normalize_string (Dbg.normalize_string x) =
      ⟨dbgChain (dbgChain (stripLower isStripDbg x.data))⟩ := by
  rw [dbg_normalize_eq x, dbg_normalize_eq]
  have hsafe : ∀ c : Char, c ∈ "disposable".data ∨ c ∈ "ecig".data →
      lowerChar c = c ∧ isStripDbg c = false := by
    intro c hc
    rcases hc with hc | hc <;> fin_cases hc <;> exact ⟨by decide, by decide⟩
  have hfix : stripLower isStripDbg (dbgChain (stripLower isStripDbg x.data)) =
      dbgChain (stripLower isStripDbg x.data) := by
    apply stripLower_fixed
    intro c hc
    rcases dbgChain_sub hc with hc | hc
    · exact mem_stripLower hc
    · exact hsafe c hc
  exact congrArg _ (congrArg _ hfix)

/-! ## Claim C2 -/

/-- C2 counterexample: neither `normalize_string` variant is idempotent.
On `"5puffpuffs"` one application yields `"5puffs"` (the scan resumes after
the deleted `puff`, so the newly adjacent `5puffs` is not reconsidered) and
a second application reduces further to `"5"`, for both variants. -/
theorem c2_idempotence_counterexample :
    Csv.normalize_string "5puffpuffs" = "5puffs" ∧
    Csv.normalize_string (Csv.normalize_string "5puffpuffs") = "5" ∧
    Csv.normalize_string (Csv.normalize_string "5puffpuffs") ≠
      Csv.normalize_string "5puffpuffs" ∧
    Dbg.normalize_string "5puffpuffs" = "5puffs" ∧
    Dbg.normalize_string (Dbg.normalize_string "5puffpuffs") = "5" ∧
    Dbg.normalize_string (Dbg.normalize_string "5puffpuffs") ≠
      Dbg.normalize_string "5puffpuffs" := by
  refine ⟨by decide, by decide, ?_, by decide, by decide, ?_⟩ <;> decide

/-- C2 amended: the lower-casing and punctuation-stripping stages never need
a second pass, so for each variant `normalize (normalize x) = normalize x`
holds exactly when the variant's domain-rewrite chain, applied once more to
the output of the first pass, makes no further change.  (This fails e.g. at
`x = "5puffpuffs"`, so the normalizers are not idempotent in general.) -/
theorem c2_normalize_idempotent_iff_chain_stable (x : String) :
    (Csv.normalize_string (Csv.normalize_string x) = Csv.normalize_string x ↔
      puffsSub (puffsSub (stripLower isStripCsv x.data)) =
        puffsSub (stripLower isStripCsv x.data)) ∧
    (Dbg.normalize_string (Dbg.normalize_string x) = Dbg.normalize_string x ↔
      dbgChain (dbgChain (stripLower isStripDbg x.data)) =
        dbgChain (stripLower isStripDbg x.data)) := by
  constructor
  · rw [csv_normalize_normalize, csv_normalize_eq]
    exact string_mk_eq_iff _ _
  · rw [dbg_normalize_normalize, dbg_normalize_eq]
    exact string_mk_eq_iff _ _

/-! ## Claim C4 -/

/-- C4 counterexample: the two Scenario A master names do not normalize to
the same key, because the puff rewrite keeps the digits (`r'\1'`). -/
theorem c4_scenarioA_counterexample :
    Csv.normalize_string "Wild Berry Ice 5000 Puffs Disposable" ≠
      Csv.normalize_string "wild-berry-ice-disposable" := by
  decide

/-- C4 amended: `normalize` strips the word `Puffs` after the digit run but
retains the digits themselves, so the two Scenario A names normalize to the
distinct keys `"wildberryice5000disposable"` and `"wildberryicedisposable"`. -/
theorem c4_scenarioA_amended :
    Csv.normalize_string "Wild Berry Ice 5000 Puffs Disposable" =
      "wildberryice5000disposable" ∧
    Csv.normalize_string "wild-berry-ice-disposable" = "wildberryicedisposable" ∧
    ("wildberryice5000disposable" : String) ≠ "wildberryicedisposable" := by
  refine ⟨by decide, by decide, by decide⟩

/-! ## Claim C10 -/

/-- C10: a variant row whose title and handle are both empty or
whitespace-only after stripping is always unmatched, whatever the tables
hold: both strategies of `find_match` are guarded by non-emptiness. -/
theorem c10_blank_row_unmatched (row : VariantRow) (d1 dn : List (String × MRec))
    (ht : pyStrip row.title = "") (hh : pyStrip row.handle = "") :
    find_match row d1 dn = none := by
  unfold find_match
  simp [ht, hh]

/-- C10 witness: a concrete whitespace-only row against non-empty tables. -/
theorem c10_blank_row_unmatched_witness :
    pyStrip (VariantRow.mk " \t" "  " "Color" "Blue" "" "" "" "").title = "" ∧
    pyStrip (VariantRow.mk " \t" "  " "Color" "Blue" "" "" "" "").handle = "" ∧
    find_match (VariantRow.mk " \t" "  " "Color" "Blue" "" "" "" "")
      [("Blue", ⟨"s", "b"⟩)] [("blue", ⟨"s", "b"⟩)] = none :=
  ⟨by decide, by decide,
    c10_blank_row_unmatched _ _ _ (by decide) (by decide)⟩

/-! ## Claim C3 -/

/-- C3 counterexample: the normalizer actually used by the match resolver
(`csv_mapper.normalize_string`) does not strip `kit`.  In the Scenario B
shape (`Title="Mango Kit"`, `Option1 Value="Blue"`, `Handle="mango-kit"`)
the handle-fallback candidate is `"mangokitblue"` — `kit` retained — so a
master record named `"Mango Blue"` (normalized `"mangoblue"`) is *not*
matched, contradicting the claimed kit-stripping during the fallback. -/
theorem c3_kit_not_stripped_counterexample :
    fallbackCandidate (VariantRow.mk "mango-kit" "Mango Kit" "Color" "Blue" "" "" "" "") =
      some "mangokitblue" ∧
    hasSub "kit".data "mangokitblue".data = true ∧
    Csv.normalize_string "Mango Blue" = "mangoblue" ∧
    find_match (VariantRow.mk "mango-kit" "Mango Kit" "Color" "Blue" "" "" "" "")
      (load_sheet1 [⟨"Mango Blue", "S1", "B1"⟩]).sheet1_data
      (load_sheet1 [⟨"Mango Blue", "S1", "B1"⟩]).sheet1_normalized = none := by
  refine ⟨by decide, by decide, by decide, by decide⟩

/-- C3 amended: the Text Normalizer used for matching
(`csv_mapper.normalize_string`) applies, after lower-casing and punctuation
stripping, only the digits-`puff(s)` rewrite; it leaves `kit`, `pod`,
`powered by …` phrases and `<digits>pack` untouched (in particular `kit`
survives the Scenario B handle-fallback normalization).  The full rewrite
list of the claim, in that fixed order, is applied only by the debug-script
normalizer (`debug_mapper.normalize_string`). -/
theorem c3_matching_normalizer_amended :
    Csv.normalize_string "Mango Kit" = "mangokit" ∧
    Csv.normalize_string "Mango Pod" = "mangopod" ∧
    Csv.normalize_string "Powered By Alpha Vape Beta Co" = "poweredbyalphavapebetaco" ∧
    Csv.normalize_string "12Pack" = "12pack" ∧
    Csv.normalize_string "500 Puffs" = "500" ∧
    Csv.normalize_string "Puffs" = "puffs" ∧
    Dbg.normalize_string "Mango Kit" = "mango" ∧
    Dbg.normalize_string "Mango Pod" = "mango" ∧
    Dbg.normalize_string "Powered By Alpha Vape Beta Co" = "" ∧
    Dbg.normalize_string "Disposable Device" = "disposable" ∧
    Dbg.normalize_string "12Pack" = "" ∧
    Dbg.normalize_string "500 Puffs" = "500" ∧
    Dbg.normalize_string "Puffs" = "puffs" ∧
    fallbackCandidate (VariantRow.mk "mango-kit" "Mango Kit" "Color" "Blue" "" "" "" "") =
      some "mangokitblue" := by
  refine ⟨by decide, by decide, by decide, by decide, by decide, by decide, by decide,
    by decide, by decide, by decide, by decide, by decide, by decide, by decide⟩

/-! ## Claim C9 -/

theorem lexLe_iff : ∀ (a b : List Char), lexLe a b = true ↔ ¬ b < a := by
  intro a
  induction a with
  | nil =>
    intro b
    constructor
    · intro _ hlt
      nomatch hlt
    · intro _
      rfl
  | cons x xs ih =>
    intro b
    cases b with
    | nil =>
      constructor
      · intro h
        simp [lexLe] at h
      · intro h
        exact absurd List.Lex.nil h
    | cons y ys =>
      rw [lexLe]
      by_cases hxy : x < y
      · simp only [hxy, if_true, true_iff]
        intro h
        cases h with
        | cons h3 => exact absurd hxy (lt_irrefl x)
        | rel h' => exact absurd h' (asymm hxy)
      · by_cases hyx : y < x
        · rw [if_neg hxy, if_pos hyx]
          exact ⟨fun hf => absurd hf Bool.false_ne_true,
            fun hn => absurd (List.Lex.rel hyx) hn⟩
        · have hxe : x = y := le_antisymm (le_of_not_lt hyx) (le_of_not_lt hxy)
          subst hxe
          simp only [hxy, hyx, if_false]
          rw [ih ys]
          apply not_congr
          constructor
          · intro h
            exact List.Lex.cons h
          · intro h
            cases h with
            | cons h3 => exact h3
            | rel h' => exact absurd h' (lt_irrefl x)

theorem lexLe_iff_le (a b : String) : lexLe a.data b.data = true ↔ a ≤ b := by
  rw [lexLe_iff]
  exact (not_congr String.lt_iff_toList_lt).symm

theorem insSorted_mem {x y : String} : ∀ {l : List String}, y ∈ insSorted x l → y = x ∨ y ∈ l := by
  intro l h
  induction l with
  | nil => simpa [insSorted] using h
  | cons z r ih =>
    rw [insSorted] at h
    split at h
    · exact (List.mem_cons.mp h).imp id id
    · rcases List.mem_cons.mp h with h | h
      · exact Or.inr (by simp [h])
      · rcases ih h with h | h
        · exact Or.inl h
        · exact Or.inr (List.mem_cons_of_mem _ h)

theorem insSorted_sorted {x : String} : ∀ {l : List String}, l.Sorted (· ≤ ·) →
    (insSorted x l).Sorted (· ≤ ·) := by
  intro l h
  induction l with
  | nil => simp [insSorted]
  | cons y r ih =>
    rw [insSorted]
    rw [List.sorted_cons] at h
    split
    · rename_i hxy
      rw [lexLe_iff_le] at hxy
      refine List.sorted_cons.mpr ⟨?_, List.sorted_cons.mpr h⟩
      intro b hb
      rcases List.mem_cons.mp hb with rfl | hb
      · exact hxy
      · exact le_trans hxy (h.1 b hb)
    · rename_i hxy
      have hyx : y ≤ x := by
        rcases le_total x y with hle | hle
        · exact absurd ((lexLe_iff_le x y).mpr hle) hxy
        · exact hle
      refine List.sorted_cons.mpr ⟨?_, ih h.2⟩
      intro b hb
      rcases insSorted_mem hb with rfl | hb
      · exact hyx
      · exact h.1 b hb

theorem insSort_sorted : ∀ (l : List String), (insSort l).Sorted (· ≤ ·) := by
  intro l
  induction l with
  | nil => simp [insSort]
  | cons x r ih =>
    rw [insSort]
    exact insSorted_sorted ih

/-- C9: the two-way SKU-list comparison produces exactly the three
pairwise-disjoint sets `A \ B`, `B \ A`, `A ∩ B`, whose unions restore `A`
and `B`, and each emitted report key list is sorted; Scenario E
(`A = {k1,k2,k3}` vs `B = {k2,k3,k4}`) gives only-in-A `{k1}`, only-in-B
`{k4}`, in-both `{k2,k3}`, each internally sorted. -/
theorem c9_compare_three_sets (s1 s2 : List String)
    (det1 det2 : List (String × (String × String))) :
    (compare_missing_sku_lists s1 s2 det1 det2).only_in_first.toFinset =
      s1.toFinset \ s2.toFinset ∧
    (compare_missing_sku_lists s1 s2 det1 det2).only_in_second.toFinset =
      s2.toFinset \ s1.toFinset ∧
    (compare_missing_sku_lists s1 s2 det1 det2).common_skus.toFinset =
      s1.toFinset ∩ s2.toFinset ∧
    Disjoint (s1.toFinset \ s2.toFinset) (s2.toFinset \ s1.toFinset) ∧
    Disjoint (s1.toFinset \ s2.toFinset) (s1.toFinset ∩ s2.toFinset) ∧
    Disjoint (s2.toFinset \ s1.toFinset) (s1.toFinset ∩ s2.toFinset) ∧
    (s1.toFinset \ s2.toFinset) ∪ (s1.toFinset ∩ s2.toFinset) = s1.toFinset ∧
    (s2.toFinset \ s1.toFinset) ∪ (s1.toFinset ∩ s2.toFinset) = s2.toFinset ∧
    (compare_missing_sku_lists s1 s2 det1 det2).report_first.Sorted (· ≤ ·) ∧
    (compare_missing_sku_lists s1 s2 det1 det2).report_second.Sorted (· ≤ ·) ∧
    (compare_missing_sku_lists s1 s2 det1 det2).report_both.Sorted (· ≤ ·) ∧
    (compare_missing_sku_lists
        (load_missing_skus [⟨"k1", "n1", "b1"⟩, ⟨"k2", "n2", "b2"⟩, ⟨"k3", "n3", "b3"⟩])
        (load_missing_skus [⟨"k2", "n2", "b2"⟩, ⟨"k3", "n3", "b3"⟩, ⟨"k4", "n4", "b4"⟩])
        (load_missing_sku_details [⟨"k1", "n1", "b1"⟩, ⟨"k2", "n2", "b2"⟩, ⟨"k3", "n3", "b3"⟩])
        (load_missing_sku_details [⟨"k2", "n2", "b2"⟩, ⟨"k3", "n3", "b3"⟩, ⟨"k4", "n4", "b4"⟩])) =
      CompareResult.mk ["k1"] ["k4"] ["k2", "k3"] ["k1"] ["k4"] ["k2", "k3"] := by
  refine ⟨?_, ?_, ?_, ?_, ?_, ?_, Finset.sdiff_union_inter _ _, ?_, ?_, ?_, ?_, by decide⟩
  · ext a
    simp [compare_missing_sku_lists, setDiff]
  · ext a
    simp [compare_missing_sku_lists, setDiff]
  · ext a
    simp [compare_missing_sku_lists, setInter]
  · rw [Finset.disjoint_left]
    intro a ha hb
    rw [Finset.mem_sdiff] at ha hb
    exact hb.2 ha.1
  · rw [Finset.disjoint_left]
    intro a ha hb
    rw [Finset.mem_sdiff] at ha
    rw [Finset.mem_inter] at hb
    exact ha.2 hb.2
  · rw [Finset.disjoint_left]
    intro a ha hb
    rw [Finset.mem_sdiff] at ha
    rw [Finset.mem_inter] at hb
    exact ha.2 hb.1
  · rw [Finset.inter_comm]
    exact Finset.sdiff_union_inter _ _
  · exact List.Pairwise.filter _ (insSort_sorted _)
  · exact List.Pairwise.filter _ (insSort_sorted _)
  · exact List.Pairwise.filter _ (insSort_sorted _)

/-! ## Claim C8 -/

/-- Title of the first row in input order that shares the (non-empty) group
identifier `h` and has a non-empty title — the spec's description of the
title-filling pre-pass. -/
def firstGroupTitle (rows : List VariantRow) (h : String) : Option String :=
  (rows.find? (fun r => pyStrip r.handle == h && pyStrip r.title != "")).map
    (fun r => pyStrip r.title)

/-- Specification-level pre-pass, row by row: a row with a non-empty title,
or with no group identifier, or whose group has no non-empty title anywhere,
is unchanged; otherwise the row inherits the group's first title. -/
def fillSpecRow (rows : List VariantRow) (r : VariantRow) : VariantRow :=
  if pyStrip r.title ≠ "" then r
  else if pyStrip r.handle = "" then r
  else
    match firstGroupTitle rows (pyStrip r.handle) with
    | some t => { r with title := t }
    | none => r

theorem htStep_lookup : ∀ (rows : List VariantRow) (acc : List (String × String)) (h : String),
    h ≠ "" →
    dlookup (rows.foldl htStep acc) h =
      (match dlookup acc h with
       | some t => some t
       | none => firstGroupTitle rows h) := by
  intro rows
  induction rows with
  | nil =>
    intro acc h _
    rw [List.foldl_nil]
    cases dlookup acc h <;> simp [firstGroupTitle]
  | cons r rest ih =>
    intro acc h hne
    rw [List.foldl_cons, ih _ h hne]
    by_cases hcond : pyStrip r.handle ≠ "" ∧ pyStrip r.title ≠ "" ∧
        dlookup acc (pyStrip r.handle) = none
    · have hstep : htStep acc r = dinsert acc (pyStrip r.handle) (pyStrip r.title) := by
        unfold htStep
        rw [if_pos hcond]
      rw [hstep, dlookup_dinsert]
      by_cases heq : h = pyStrip r.handle
      · rw [if_pos heq]
        have hacc : dlookup acc h = none := by
          rw [heq]
          exact hcond.2.2
        rw [hacc]
        unfold firstGroupTitle
        rw [List.find?_cons_of_pos]
        · rfl
        · simp only [Bool.and_eq_true, beq_iff_eq, bne_iff_ne]
          exact ⟨heq.symm, hcond.2.1⟩
      · rw [if_neg heq]
        cases hdl : dlookup acc h with
        | some t => rfl
        | none =>
          unfold firstGroupTitle
          have hfind : List.find?
              (fun r => pyStrip r.handle == h && pyStrip r.title != "") (r :: rest) =
              List.find? (fun r => pyStrip r.handle == h && pyStrip r.title != "") rest := by
            apply List.find?_cons_of_neg
            simp only [Bool.and_eq_true, beq_iff_eq, bne_iff_ne, not_and]
            intro habs
            exact absurd habs.symm heq
          rw [hfind]
    · have hstep : htStep acc r = acc := by
        unfold htStep
        rw [if_neg hcond]
      rw [hstep]
      cases hdl : dlookup acc h with
      | some t => rfl
      | none =>
        unfold firstGroupTitle
        by_cases hpred : (pyStrip r.handle == h && pyStrip r.title != "") = true
        · exfalso
          rw [Bool.and_eq_true, beq_iff_eq, bne_iff_ne] at hpred
          exact hcond ⟨hpred.1.symm ▸ hne, hpred.2, hpred.1 ▸ hdl⟩
        · have hfind : List.find?
              (fun r => pyStrip r.handle == h && pyStrip r.title != "") (r :: rest) =
              List.find? (fun r => pyStrip r.handle == h && pyStrip r.title != "") rest :=
            List.find?_cons_of_neg _ hpred
          rw [hfind]

theorem handleTitles_lookup (rows : List VariantRow) (h : String) (hne : h ≠ "") :
    dlookup (handleTitles rows) h = firstGroupTitle rows h := by
  have hlk := htStep_lookup rows [] h hne
  simpa [handleTitles, dlookup] using hlk

/-- C8: the title-filling pre-pass equals the spec's row-wise description —
a row with an empty title and a group identifier inherits the stripped title
of the first row in input order sharing that identifier with a non-empty
title; rows with a title, without a handle, or in a titleless group are
unchanged.  Scenario D follows concretely. -/
theorem c8_fill_missing_titles (rows : List VariantRow) :
    fill_missing_titles rows = rows.map (fillSpecRow rows) ∧
    fill_missing_titles
      [VariantRow.mk "bundle-x" "Bundle X" "" "" "" "" "" "",
       VariantRow.mk "bundle-x" "" "Color" "Blue" "" "" "" "",
       VariantRow.mk "bundle-x" "" "Color" "Red" "" "" "" ""] =
      [VariantRow.mk "bundle-x" "Bundle X" "" "" "" "" "" "",
       VariantRow.mk "bundle-x" "Bundle X" "Color" "Blue" "" "" "" "",
       VariantRow.mk "bundle-x" "Bundle X" "Color" "Red" "" "" "" ""] := by
  constructor
  · unfold fill_missing_titles
    apply List.map_congr_left
    intro r hr
    by_cases ht : pyStrip r.title = ""
    · by_cases hh : pyStrip r.handle = ""
      · simp [fillSpecRow, ht, hh]
      · have hlk := handleTitles_lookup rows (pyStrip r.handle) hh
        simp [fillSpecRow, ht, hh, hlk]
    · simp [fillSpecRow, ht]
  · decide

/-! ## Specification-level description of the Master Index build -/

/-- Enumeration of rows with CSV positions starting at `n` (DictReader rows
start at 2, after the header). -/
def enumF {α : Type} : Nat → List α → List (Nat × α)
  | _, [] => []
  | n, a :: rest => (n, a) :: enumF (n + 1) rest

theorem enumF_append {α : Type} : ∀ (xs ys : List α) (n : Nat),
    enumF n (xs ++ ys) = enumF n xs ++ enumF (n + xs.length) ys := by
  intro xs
  induction xs with
  | nil =>
    intro ys n
    simp [enumF]
  | cons a rest ih =>
    intro ys n
    have harith : n + 1 + rest.length = n + (rest.length + 1) := by omega
    simp only [List.cons_append, enumF, List.length_cons, List.append_eq]
    rw [ih, harith]

theorem enumF_bound {α : Type} : ∀ (l : List α) (n : Nat) (p : Nat × α),
    p ∈ enumF n l → n ≤ p.1 ∧ p.1 < n + l.length := by
  intro l
  induction l with
  | nil =>
    intro n p h
    simp [enumF] at h
  | cons a rest ih =>
    intro n p h
    simp only [enumF, List.mem_cons] at h
    rcases h with rfl | h
    · refine ⟨le_rfl, ?_⟩
      show n < n + (a :: rest).length
      simp only [List.length_cons]
      omega
    · have := ih (n + 1) p h
      simp only [List.length_cons]
      omega

/-- Spec: the record stored under an exact name is the data of the last row
whose stripped display name equals it (last-write-wins). -/
def lastNamed (rows : List S1Row) (name : String) : Option MRec :=
  ((rows.filter (fun r => pyStrip r.name == name)).getLast?).map
    (fun r => ⟨pyStrip r.internal_reference, r.barcode⟩)

/-- Spec: the record stored under a normalized key is the data of the last
row with a non-empty name normalizing to it (last-write-wins). -/
def lastNormed (rows : List S1Row) (key : String) : Option MRec :=
  ((rows.filter (fun r =>
      pyStrip r.name != "" && (Csv.normalize_string (pyStrip r.name) == key))).getLast?).map
    (fun r => ⟨pyStrip r.internal_reference, r.barcode⟩)

/-- Spec: first occurrence (display name and row position, positions starting
at `n`) of a given non-empty identifier among rows with a non-empty name. -/
def firstSkuFrom (n : Nat) (rows : List S1Row) (sku : String) : Option (String × Nat) :=
  ((enumF n rows).find? (fun q =>
      pyStrip q.2.name != "" && pyStrip q.2.internal_reference == sku)).map
    (fun q => (pyStrip q.2.name, q.1))

def firstSku (rows : List S1Row) (sku : String) : Option (String × Nat) :=
  firstSkuFrom 2 rows sku

/-- Contribution of the indexed row `p` to the duplicate report: if its
identifier is non-empty and repeats an earlier indexed row of `ex`, the pair
of the identifier's first occurrence (among `frows`) and `p` itself. -/
def dupBody (ex : List (Nat × S1Row)) (frows : List S1Row) (p : Nat × S1Row) : List DupEntry :=
  if pyStrip p.2.name ≠ "" ∧ pyStrip p.2.internal_reference ≠ "" ∧
      (∃ q ∈ ex, q.1 < p.1 ∧ pyStrip q.2.name ≠ "" ∧
        pyStrip q.2.internal_reference = pyStrip p.2.internal_reference) then
    match firstSku frows (pyStrip p.2.internal_reference) with
    | some fo =>
      [⟨pyStrip p.2.internal_reference, fo.1, fo.2, "First occurrence"⟩,
       ⟨pyStrip p.2.internal_reference, pyStrip p.2.name, p.1,
        "Duplicate of row " ++ Nat.repr fo.2⟩]
    | none => []
  else []

/-- Spec: the duplicate report.  Every indexed row whose non-empty identifier
also occurs at an earlier indexed row contributes one pair: the identifier's
first occurrence and the current occurrence. -/
def dupsSpec (rows : List S1Row) : List DupEntry :=
  (enumF 2 rows).flatMap (dupBody (enumF 2 rows) rows)

/-! ## Step lemmas for `load_sheet1` -/

theorem trackerStep_d1 (n : Nat) (st : LoadState) (name sku : String) :
    (trackerStep n st name sku).sheet1_data = st.sheet1_data := by
  unfold trackerStep
  split
  · split <;> rfl
  · rfl

theorem trackerStep_dn (n : Nat) (st : LoadState) (name sku : String) :
    (trackerStep n st name sku).sheet1_normalized = st.sheet1_normalized := by
  unfold trackerStep
  split
  · split <;> rfl
  · rfl

theorem loadStep_of_empty {n : Nat} {st : LoadState} {r : S1Row}
    (h : pyStrip r.name = "") : loadStep n st r = st := by
  unfold loadStep
  rw [if_pos h]

theorem loadStep_d1 {n : Nat} {st : LoadState} {r : S1Row}
    (h : pyStrip r.name ≠ "") :
    (loadStep n st r).sheet1_data =
      dinsert st.sheet1_data (pyStrip r.name)
        ⟨pyStrip r.internal_reference, r.barcode⟩ := by
  unfold loadStep
  rw [if_neg h]
  exact congrArg (fun d => dinsert d (pyStrip r.name) _) (trackerStep_d1 _ _ _ _)

theorem loadStep_dn {n : Nat} {st : LoadState} {r : S1Row}
    (h : pyStrip r.name ≠ "") :
    (loadStep n st r).sheet1_normalized =
      dinsert st.sheet1_normalized (Csv.normalize_string (pyStrip r.name))
        ⟨pyStrip r.internal_reference, r.barcode⟩ := by
  unfold loadStep
  rw [if_neg h]
  exact congrArg (fun d => dinsert d (Csv.normalize_string (pyStrip r.name)) _)
    (trackerStep_dn _ _ _ _)

theorem loadStep_tracker {n : Nat} {st : LoadState} {r : S1Row}
    (h : pyStrip r.name ≠ "") :
    (loadStep n st r).sku_tracker =
      (trackerStep n st (pyStrip r.name) (pyStrip r.internal_reference)).sku_tracker := by
  unfold loadStep
  rw [if_neg h]

theorem loadStep_dups {n : Nat} {st : LoadState} {r : S1Row}
    (h : pyStrip r.name ≠ "") :
    (loadStep n st r).duplicate_skus =
      (trackerStep n st (pyStrip r.name) (pyStrip r.internal_reference)).duplicate_skus := by
  unfold loadStep
  rw [if_neg h]

theorem loadAux_append : ∀ (xs : List S1Row) (y : S1Row) (n : Nat) (st : LoadState),
    loadAux n st (xs ++ [y]) = loadStep (n + xs.length) (loadAux n st xs) y := by
  intro xs
  induction xs with
  | nil =>
    intro y n st
    simp [loadAux]
  | cons x rest ih =>
    intro y n st
    rw [List.cons_append]
    show loadAux (n + 1) (loadStep n st x) (rest ++ [y]) =
      loadStep (n + (x :: rest).length) (loadAux (n + 1) (loadStep n st x) rest) y
    rw [ih]
    congr 1
    simp
    omega

theorem load_sheet1_append (rows : List S1Row) (r : S1Row) :
    load_sheet1 (rows ++ [r]) = loadStep (2 + rows.length) (load_sheet1 rows) r :=
  loadAux_append rows r 2 ⟨[], [], [], []⟩

theorem load_d1_lookup (rows : List S1Row) (name : String) (hne : name ≠ "") :
    dlookup (load_sheet1 rows).sheet1_data name = lastNamed rows name := by
  induction rows using List.reverseRecOn with
  | nil => rfl
  | append_singleton rows r ih =>
    rw [load_sheet1_append]
    by_cases hre : pyStrip r.name = ""
    · rw [loadStep_of_empty hre, ih]
      unfold lastNamed
      rw [List.filter_append]
      have hpred : (pyStrip r.name == name) = false := by
        rw [hre, beq_eq_false_iff_ne]
        exact fun h => hne h.symm
      have hf : List.filter (fun r' => pyStrip r'.name == name) [r] = [] := by
        simp [List.filter_cons, hpred]
      rw [hf, List.append_nil]
    · rw [loadStep_d1 hre, dlookup_dinsert, ih]
      unfold lastNamed
      rw [List.filter_append]
      by_cases heq : name = pyStrip r.name
      · rw [if_pos heq]
        have hf : List.filter (fun r' => pyStrip r'.name == name) [r] = [r] := by
          simp [heq.symm]
        rw [hf, List.getLast?_concat]
        rfl
      · rw [if_neg heq]
        have hpred : (pyStrip r.name == name) = false := by
          rw [beq_eq_false_iff_ne]
          exact fun h => heq h.symm
        have hf : List.filter (fun r' => pyStrip r'.name == name) [r] = [] := by
          simp [List.filter_cons, hpred]
        rw [hf, List.append_nil]

theorem load_dn_lookup (rows : List S1Row) (key : String) :
    dlookup (load_sheet1 rows).sheet1_normalized key = lastNormed rows key := by
  induction rows using List.reverseRecOn with
  | nil => rfl
  | append_singleton rows r ih =>
    rw [load_sheet1_append]
    by_cases hre : pyStrip r.name = ""
    · rw [loadStep_of_empty hre, ih]
      unfold lastNormed
      rw [List.filter_append]
      have hf : List.filter (fun r' => pyStrip r'.name != "" &&
          (Csv.normalize_string (pyStrip r'.name) == key)) [r] = [] := by
        simp [hre]
      rw [hf, List.append_nil]
    · rw [loadStep_dn hre, dlookup_dinsert, ih]
      unfold lastNormed
      rw [List.filter_append]
      by_cases heq : key = Csv.normalize_string (pyStrip r.name)
      · rw [if_pos heq]
        have hf : List.filter (fun r' => pyStrip r'.name != "" &&
            (Csv.normalize_string (pyStrip r'.name) == key)) [r] = [r] := by
          simp [hre, heq.symm]
        rw [hf, List.getLast?_concat]
        rfl
      · rw [if_neg heq]
        have hpred : (Csv.normalize_string (pyStrip r.name) == key) = false := by
          rw [beq_eq_false_iff_ne]
          exact fun h => heq h.symm
        have hf : List.filter (fun r' => pyStrip r'.name != "" &&
            (Csv.normalize_string (pyStrip r'.name) == key)) [r] = [] := by
          simp [List.filter_cons, hpred]
        rw [hf, List.append_nil]

theorem load_tracker_lookup (rows : List S1Row) (sku : String) (hs : sku ≠ "") :
    dlookup (load_sheet1 rows).sku_tracker sku = firstSku rows sku := by
  induction rows using List.reverseRecOn with
  | nil => rfl
  | append_singleton rows r ih =>
    rw [load_sheet1_append]
    by_cases hre : pyStrip r.name = ""
    · rw [loadStep_of_empty hre, ih]
      unfold firstSku firstSkuFrom
      rw [enumF_append, List.find?_append]
      have h2 : List.find? (fun q => pyStrip q.2.name != "" && pyStrip q.2.internal_reference == sku)
          (enumF (2 + rows.length) [r]) = none := by
        simp [enumF, List.find?_cons, hre]
      rw [h2, Option.or_none]
    · rw [loadStep_tracker hre]
      unfold trackerStep
      by_cases hsk : pyStrip r.internal_reference ≠ ""
      · rw [if_pos hsk]
        cases htr : dlookup (load_sheet1 rows).sku_tracker (pyStrip r.internal_reference) with
        | some fr =>
          show dlookup (load_sheet1 rows).sku_tracker sku = _
          rw [ih]
          unfold firstSku firstSkuFrom
          rw [enumF_append, List.find?_append]
          by_cases heq : sku = pyStrip r.internal_reference
          · have hsome : firstSku rows sku = some (fr.1, fr.2) := by
              rw [← ih, heq, htr]
            unfold firstSku firstSkuFrom at hsome
            cases hfind : List.find?
                (fun q => pyStrip q.2.name != "" && pyStrip q.2.internal_reference == sku)
                (enumF 2 rows) with
            | none =>
              rw [hfind] at hsome
              simp at hsome
            | some q => simp [Option.or_some]
          · have h2 : List.find?
                (fun q => pyStrip q.2.name != "" && pyStrip q.2.internal_reference == sku)
                (enumF (2 + rows.length) [r]) = none := by
              have hb : (pyStrip r.internal_reference == sku) = false := by
                rw [beq_eq_false_iff_ne]
                exact fun h => heq h.symm
              simp [enumF, List.find?_cons, hb]
            rw [h2, Option.or_none]
        | none =>
          show dlookup (dinsert (load_sheet1 rows).sku_tracker (pyStrip r.internal_reference)
            (pyStrip r.name, 2 + rows.length)) sku = _
          rw [dlookup_dinsert]
          unfold firstSku firstSkuFrom
          rw [enumF_append, List.find?_append]
          by_cases heq : sku = pyStrip r.internal_reference
          · rw [if_pos heq]
            have hnone : firstSku rows sku = none := by
              rw [← ih, heq]
              exact htr
            unfold firstSku firstSkuFrom at hnone
            cases hfind : List.find?
                (fun q => pyStrip q.2.name != "" && pyStrip q.2.internal_reference == sku)
                (enumF 2 rows) with
            | some q =>
              rw [hfind] at hnone
              simp at hnone
            | none =>
              have hb : (pyStrip r.internal_reference == sku) = true := by
                rw [beq_iff_eq]
                exact heq.symm
              simp [enumF, List.find?_cons, hre, hb, Option.none_or]
          · rw [if_neg heq, ih]
            unfold firstSku firstSkuFrom
            have h2 : List.find?
                (fun q => pyStrip q.2.name != "" && pyStrip q.2.internal_reference == sku)
                (enumF (2 + rows.length) [r]) = none := by
              have hb : (pyStrip r.internal_reference == sku) = false := by
                rw [beq_eq_false_iff_ne]
                exact fun h => heq h.symm
              simp [enumF, List.find?_cons, hb]
            rw [h2, Option.or_none]
      · rw [if_neg hsk]
        rw [show (¬pyStrip r.internal_reference ≠ "") = (pyStrip r.internal_reference ≠ "" → False) from rfl] at hsk
        have hske : pyStrip r.internal_reference = "" := by
          by_contra hc
          exact hsk hc
        rw [ih]
        unfold firstSku firstSkuFrom
        rw [enumF_append, List.find?_append]
        have h2 : List.find?
            (fun q => pyStrip q.2.name != "" && pyStrip q.2.internal_reference == sku)
            (enumF (2 + rows.length) [r]) = none := by
          have hb : (pyStrip r.internal_reference == sku) = false := by
            rw [beq_eq_false_iff_ne, hske]
            exact fun h => hs h.symm
          simp [enumF, List.find?_cons, hb]
        rw [h2, Option.or_none]

theorem dupBody_mk (ex : List (Nat × S1Row)) (frows : List S1Row) (n : Nat) (r : S1Row) :
    dupBody ex frows (n, r) =
      if pyStrip r.name ≠ "" ∧ pyStrip r.internal_reference ≠ "" ∧
          (∃ q ∈ ex, q.1 < n ∧ pyStrip q.2.name ≠ "" ∧
            pyStrip q.2.internal_reference = pyStrip r.internal_reference) then
        match firstSku frows (pyStrip r.internal_reference) with
        | some fo =>
          [⟨pyStrip r.internal_reference, fo.1, fo.2, "First occurrence"⟩,
           ⟨pyStrip r.internal_reference, pyStrip r.name, n,
            "Duplicate of row " ++ Nat.repr fo.2⟩]
        | none => []
      else [] := rfl

theorem flatMap_congr_mem {α β : Type} {l : List α} {f g : α → List β}
    (h : ∀ a ∈ l, f a = g a) : l.flatMap f = l.flatMap g := by
  induction l with
  | nil => rfl
  | cons a rest ih =>
    rw [List.flatMap_cons, List.flatMap_cons, h a (by simp),
      ih (fun x hx => h x (List.mem_cons_of_mem a hx))]

theorem firstSku_append_of_exists {rows : List S1Row} {r : S1Row} {sku : String}
    (h : ∃ q ∈ enumF 2 rows, pyStrip q.2.name ≠ "" ∧
      pyStrip q.2.internal_reference = sku) :
    firstSku (rows ++ [r]) sku = firstSku rows sku := by
  unfold firstSku firstSkuFrom
  rw [enumF_append, List.find?_append]
  obtain ⟨q, hq, h1, h2⟩ := h
  cases hfind : List.find?
      (fun q => pyStrip q.2.name != "" && pyStrip q.2.internal_reference == sku)
      (enumF 2 rows) with
  | none =>
    exfalso
    rw [List.find?_eq_none] at hfind
    have hp : (pyStrip q.2.name != "" && (pyStrip q.2.internal_reference == sku)) = true := by
      simp [h1, h2]
    exact hfind q hq hp
  | some p => rw [Option.or_some]

theorem dupBody_extend {rows : List S1Row} {r : S1Row} {p : Nat × S1Row}
    (hple : p.1 ≤ 2 + rows.length) :
    dupBody (enumF 2 rows ++ enumF (2 + rows.length) [r]) (rows ++ [r]) p =
      dupBody (enumF 2 rows) rows p := by
  unfold dupBody
  have hcond : (∃ q ∈ enumF 2 rows ++ enumF (2 + rows.length) [r],
      q.1 < p.1 ∧ pyStrip q.2.name ≠ "" ∧
      pyStrip q.2.internal_reference = pyStrip p.2.internal_reference) ↔
      (∃ q ∈ enumF 2 rows, q.1 < p.1 ∧ pyStrip q.2.name ≠ "" ∧
      pyStrip q.2.internal_reference = pyStrip p.2.internal_reference) := by
    constructor
    · rintro ⟨q, hq, hlt, hrest⟩
      rw [List.mem_append] at hq
      rcases hq with hq | hq
      · exact ⟨q, hq, hlt, hrest⟩
      · exfalso
        have hqb := (enumF_bound [r] (2 + rows.length) q hq).1
        omega
    · rintro ⟨q, hq, hrest⟩
      exact ⟨q, List.mem_append_left _ hq, hrest⟩
  by_cases hc : pyStrip p.2.name ≠ "" ∧ pyStrip p.2.internal_reference ≠ "" ∧
      (∃ q ∈ enumF 2 rows, q.1 < p.1 ∧ pyStrip q.2.name ≠ "" ∧
      pyStrip q.2.internal_reference = pyStrip p.2.internal_reference)
  · rw [if_pos ⟨hc.1, hc.2.1, hcond.mpr hc.2.2⟩, if_pos hc]
    obtain ⟨q, hq, _, hqn, hqs⟩ := hc.2.2
    rw [firstSku_append_of_exists ⟨q, hq, hqn, hqs⟩]
  · rw [if_neg (fun h => hc ⟨h.1, h.2.1, hcond.mp h.2.2⟩), if_neg hc]

theorem dupsSpec_append (rows : List S1Row) (r : S1Row) :
    dupsSpec (rows ++ [r]) =
      dupsSpec rows ++ dupBody (enumF 2 rows) rows (2 + rows.length, r) := by
  unfold dupsSpec
  rw [enumF_append, List.flatMap_append]
  congr 1
  · exact flatMap_congr_mem
      (fun p hp => dupBody_extend (le_of_lt (enumF_bound rows 2 p hp).2))
  · rw [show enumF (2 + rows.length) [r] = [(2 + rows.length, r)] from rfl,
      List.flatMap_cons, List.flatMap_nil, List.append_nil]
    exact dupBody_extend le_rfl

theorem load_dups (rows : List S1Row) :
    (load_sheet1 rows).duplicate_skus = dupsSpec rows := by
  induction rows using List.reverseRecOn with
  | nil => rfl
  | append_singleton rows r ih =>
    rw [load_sheet1_append, dupsSpec_append, dupBody_mk]
    by_cases hre : pyStrip r.name = ""
    · rw [loadStep_of_empty hre, ih]
      have hcnot : ¬(pyStrip r.name ≠ "" ∧ pyStrip r.internal_reference ≠ "" ∧
          (∃ q ∈ enumF 2 rows, q.1 < 2 + rows.length ∧ pyStrip q.2.name ≠ "" ∧
            pyStrip q.2.internal_reference = pyStrip r.internal_reference)) :=
        fun h => h.1 hre
      rw [if_neg hcnot, List.append_nil]
    · rw [loadStep_dups hre]
      unfold trackerStep
      by_cases hsk : pyStrip r.internal_reference = ""
      · rw [if_neg (fun h => h hsk), ih]
        have hcnot : ¬(pyStrip r.name ≠ "" ∧ pyStrip r.internal_reference ≠ "" ∧
            (∃ q ∈ enumF 2 rows, q.1 < 2 + rows.length ∧ pyStrip q.2.name ≠ "" ∧
              pyStrip q.2.internal_reference = pyStrip r.internal_reference)) :=
          fun h => h.2.1 hsk
        rw [if_neg hcnot, List.append_nil]
      · rw [if_pos hsk]
        cases htr : dlookup (load_sheet1 rows).sku_tracker (pyStrip r.internal_reference) with
        | some fr =>
          show (load_sheet1 rows).duplicate_skus ++ _ = _
          rw [ih]
          have hfs : firstSku rows (pyStrip r.internal_reference) = some fr := by
            rw [← load_tracker_lookup rows _ hsk]
            exact htr
          have hfind := hfs
          unfold firstSku firstSkuFrom at hfind
          rw [Option.map_eq_some'] at hfind
          obtain ⟨q, hq, hfq⟩ := hfind
          have hqmem := List.mem_of_find?_eq_some hq
          have hqpred := List.find?_some hq
          simp only [Bool.and_eq_true, bne_iff_ne, beq_iff_eq] at hqpred
          have hqb := enumF_bound rows 2 q hqmem
          have hcpos : pyStrip r.name ≠ "" ∧ pyStrip r.internal_reference ≠ "" ∧
              (∃ q ∈ enumF 2 rows, q.1 < 2 + rows.length ∧ pyStrip q.2.name ≠ "" ∧
                pyStrip q.2.internal_reference = pyStrip r.internal_reference) :=
            ⟨hre, hsk, q, hqmem, hqb.2, hqpred.1, hqpred.2⟩
          rw [if_pos hcpos, hfs]
        | none =>
          show (load_sheet1 rows).duplicate_skus = _
          rw [ih]
          have hfs : firstSku rows (pyStrip r.internal_reference) = none := by
            rw [← load_tracker_lookup rows _ hsk]
            exact htr
          rw [hfs]
          split
          · exact (List.append_nil _).symm
          · exact (List.append_nil _).symm

/-! ## Claim C6 -/

/-- C6: Master Index build postcondition.  Exact-table lookups give the last
row loaded under the literal stripped name, normalized-table lookups the last
row whose normalized name equals the key (last-write-wins); the duplicate
list is exactly the spec's first-occurrence/current-occurrence pairs for
every repeated non-empty identifier; rows with an empty display name leave
the state untouched; and Scenario C (two rows sharing `SKU-100` under
distinct names) yields exactly one duplicate pair while both names stay in
the exact-name table. -/
theorem c6_load_sheet1_postcondition :
    (∀ (rows : List S1Row) (name : String), name ≠ "" →
      dlookup (load_sheet1 rows).sheet1_data name = lastNamed rows name) ∧
    (∀ (rows : List S1Row) (key : String),
      dlookup (load_sheet1 rows).sheet1_normalized key = lastNormed rows key) ∧
    (∀ rows : List S1Row, (load_sheet1 rows).duplicate_skus = dupsSpec rows) ∧
    (∀ (n : Nat) (st : LoadState) (r : S1Row), pyStrip r.name = "" →
      loadStep n st r = st) ∧
    ((load_sheet1 [⟨"A", "SKU-100", "b1"⟩, ⟨"B", "SKU-100", "b2"⟩]).duplicate_skus =
      [⟨"SKU-100", "A", 2, "First occurrence"⟩,
       ⟨"SKU-100", "B", 3, "Duplicate of row 2"⟩] ∧
     dlookup (load_sheet1 [⟨"A", "SKU-100", "b1"⟩, ⟨"B", "SKU-100", "b2"⟩]).sheet1_data "A" =
       some ⟨"SKU-100", "b1"⟩ ∧
     dlookup (load_sheet1 [⟨"A", "SKU-100", "b1"⟩, ⟨"B", "SKU-100", "b2"⟩]).sheet1_data "B" =
       some ⟨"SKU-100", "b2"⟩) :=
  ⟨fun rows name hne => load_d1_lookup rows name hne,
   fun rows key => load_dn_lookup rows key,
   load_dups,
   fun _ _ _ h => loadStep_of_empty h,
   by decide, by decide, by decide⟩

/-- C6 witness: the exact-table postcondition applied to Scenario C. -/
theorem c6_load_sheet1_postcondition_witness :
    dlookup (load_sheet1 [⟨"A", "SKU-100", "b1"⟩, ⟨"B", "SKU-100", "b2"⟩]).sheet1_data "A" =
      lastNamed [⟨"A", "SKU-100", "b1"⟩, ⟨"B", "SKU-100", "b2"⟩] "A" :=
  c6_load_sheet1_postcondition.1 [⟨"A", "SKU-100", "b1"⟩, ⟨"B", "SKU-100", "b2"⟩] "A"
    (by decide)

/-! ## Claim C7 -/

theorem filter_pairwise_key {α β : Type} [DecidableEq β] {f : α → β} :
    ∀ {l : List α}, l.Pairwise (fun a b => f a ≠ f b) →
      ∀ {r : α}, r ∈ l → l.filter (fun a => f a == f r) = [r] := by
  intro l hp
  induction hp with
  | nil =>
    intro r hr
    simp at hr
  | cons ha _ ih =>
    intro r hr
    rw [List.mem_cons] at hr
    rcases hr with rfl | hr
    · rw [List.filter_cons, if_pos (by simp)]
      have hnil : ∀ x, x ∈ ‹List _› → ¬((f x == f r) = true) := by
        intro x hx hxr
        rw [beq_iff_eq] at hxr
        exact ha x hx hxr.symm
      rw [List.filter_eq_nil_iff.mpr hnil]
    · rw [List.filter_cons, if_neg (by simpa using ha r hr), ih hr]

theorem lastNamed_of_unique {rows : List S1Row} {r : S1Row}
    (hmem : r ∈ rows) (hne : pyStrip r.name ≠ "")
    (hdist : (rows.filter (fun x => pyStrip x.name != "")).Pairwise
      (fun a b => Csv.normalize_string (pyStrip a.name) ≠
        Csv.normalize_string (pyStrip b.name))) :
    lastNamed rows (pyStrip r.name) =
      some ⟨pyStrip r.internal_reference, r.barcode⟩ := by
  have hnames : (rows.filter (fun x => pyStrip x.name != "")).Pairwise
      (fun a b => pyStrip a.name ≠ pyStrip b.name) :=
    hdist.imp (fun h heq => h (congrArg Csv.normalize_string heq))
  have hmemf : r ∈ rows.filter (fun x => pyStrip x.name != "") :=
    List.mem_filter.mpr ⟨hmem, by simp [hne]⟩
  have hfil := filter_pairwise_key hnames hmemf
  have hstep : (rows.filter (fun x => pyStrip x.name != "")).filter
      (fun a => pyStrip a.name == pyStrip r.name) =
      rows.filter (fun x => pyStrip x.name == pyStrip r.name) := by
    rw [List.filter_filter]
    apply List.filter_congr
    intro x _
    by_cases hxr : pyStrip x.name = pyStrip r.name
    · simp [hxr, hne]
    · simp [hxr]
  unfold lastNamed
  rw [← hstep, hfil]
  rfl

theorem lastNormed_of_unique {rows : List S1Row} {r : S1Row}
    (hmem : r ∈ rows) (hne : pyStrip r.name ≠ "")
    (hdist : (rows.filter (fun x => pyStrip x.name != "")).Pairwise
      (fun a b => Csv.normalize_string (pyStrip a.name) ≠
        Csv.normalize_string (pyStrip b.name))) :
    lastNormed rows (Csv.normalize_string (pyStrip r.name)) =
      some ⟨pyStrip r.internal_reference, r.barcode⟩ := by
  have hmemf : r ∈ rows.filter (fun x => pyStrip x.name != "") :=
    List.mem_filter.mpr ⟨hmem, by simp [hne]⟩
  have hfil := filter_pairwise_key hdist hmemf
  have hstep : (rows.filter (fun x => pyStrip x.name != "")).filter
      (fun a => Csv.normalize_string (pyStrip a.name) ==
        Csv.normalize_string (pyStrip r.name)) =
      rows.filter (fun x => pyStrip x.name != "" &&
        (Csv.normalize_string (pyStrip x.name) ==
          Csv.normalize_string (pyStrip r.name))) := by
    rw [List.filter_filter]
    apply List.filter_congr
    intro x _
    exact Bool.and_comm _ _
  unfold lastNormed
  rw [← hstep, hfil]
  rfl

/-- C7 counterexample: a master catalog with NO repeated display names whose
two distinct names `"A B"` and `"AB"` normalize to the same key `"ab"`: the
normalized-table lookup of `normalize("A B")` yields the record of the LATER
row `"AB"`, not the record loaded under `"A B"`. -/
theorem c7_normalized_collision_counterexample :
    ("A B" : String) ≠ "AB" ∧
    dlookup (load_sheet1 [⟨"A B", "s1", "b1"⟩, ⟨"AB", "s2", "b2"⟩]).sheet1_data "A B" =
      some ⟨"s1", "b1"⟩ ∧
    Csv.normalize_string "A B" = Csv.normalize_string "AB" ∧
    dlookup (load_sheet1 [⟨"A B", "s1", "b1"⟩, ⟨"AB", "s2", "b2"⟩]).sheet1_normalized
      (Csv.normalize_string "A B") = some ⟨"s2", "b2"⟩ := by
  refine ⟨by decide, by decide, by decide, by decide⟩

/-- C7 amended: distinct display names are not enough — the injectivity must
hold after normalization.  For a catalog whose rows with non-empty stripped
names have pairwise distinct *normalized* names, every such row is found
under its literal name in the exact table and under its normalized name in
the normalized table, each lookup yielding exactly that row's record. -/
theorem c7_distinct_normalized_amended (rows : List S1Row) (r : S1Row)
    (hmem : r ∈ rows) (hne : pyStrip r.name ≠ "")
    (hdist : (rows.filter (fun x => pyStrip x.name != "")).Pairwise
      (fun a b => Csv.normalize_string (pyStrip a.name) ≠
        Csv.normalize_string (pyStrip b.name))) :
    dlookup (load_sheet1 rows).sheet1_data (pyStrip r.name) =
      some ⟨pyStrip r.internal_reference, r.barcode⟩ ∧
    dlookup (load_sheet1 rows).sheet1_normalized
      (Csv.normalize_string (pyStrip r.name)) =
      some ⟨pyStrip r.internal_reference, r.barcode⟩ :=
  ⟨by rw [load_d1_lookup rows _ hne]; exact lastNamed_of_unique hmem hne hdist,
   by rw [load_dn_lookup]; exact lastNormed_of_unique hmem hne hdist⟩

/-- C7 witness: the amended invariant at a concrete two-row catalog. -/
theorem c7_distinct_normalized_witness :
    dlookup (load_sheet1 [⟨"A", "s1", "b1"⟩, ⟨"B", "s2", "b2"⟩]).sheet1_data
      (pyStrip "A") = some ⟨pyStrip "s1", "b1"⟩ ∧
    dlookup (load_sheet1 [⟨"A", "s1", "b1"⟩, ⟨"B", "s2", "b2"⟩]).sheet1_normalized
      (Csv.normalize_string (pyStrip "A")) = some ⟨pyStrip "s1", "b1"⟩ :=
  c7_distinct_normalized_amended [⟨"A", "s1", "b1"⟩, ⟨"B", "s2", "b2"⟩]
    ⟨"A", "s1", "b1"⟩ (by decide) (by decide) (by decide)

/-! ## Claim C5 -/

/-- C5 counterexample: the two `' Puffs'`-stripped candidate keys are NOT
tried for every title containing `' Puffs'` — the resolver additionally
requires a non-empty option suffix.  A row titled `"X 5000 Puffs"` with no
options builds only the single candidate `"X 5000 Puffs"`; the master key
`"X 5000"` (exactly the puffs-stripped form) is present in the exact table,
yet the row stays unmatched. -/
theorem c5_puffs_requires_suffix_counterexample :
    hasSub " Puffs".data (pyStrip "X 5000 Puffs").data = true ∧
    build_option_suffix (VariantRow.mk "" "X 5000 Puffs" "" "" "" "" "" "") = "" ∧
    enDashHyphen (puffsWordRemove (pyStrip "X 5000 Puffs")) = "X 5000" ∧
    dlookup [("X 5000", (⟨"s", "b"⟩ : MRec))] "X 5000" = some ⟨"s", "b"⟩ ∧
    find_match (VariantRow.mk "" "X 5000 Puffs" "" "" "" "" "" "")
      [("X 5000", ⟨"s", "b"⟩)] [] = none ∧
    exactCandidates (VariantRow.mk "" "X 5000 Puffs" "" "" "" "" "" "") =
      ["X 5000 Puffs"] := by
  refine ⟨by decide, by decide, by decide, by decide, by decide, by decide⟩

/-- C5 amended: the `' Puffs'`-stripped strategies run only when the option
suffix is non-empty as well.  With an empty suffix the candidate list is the
bare title; with a non-empty suffix, a title containing `' Puffs'`, and both
direct candidates missing, the resolver tries the dash-joined stripped form
and then the spaced stripped form, returning the record and candidate of the
first to hit. -/
theorem c5_puffs_strategy_amended (row : VariantRow) (d1 dn : List (String × MRec))
    (hne : pyStrip row.title ≠ "")
    (hpuffs : hasSub " Puffs".data (pyStrip row.title).data = true) :
    (build_option_suffix row = "" →
      exactCandidates row = [pyStrip row.title ++ ""]) ∧
    (build_option_suffix row ≠ "" →
      dlookup d1 (pyStrip row.title ++ build_option_suffix row) = none →
      dlookup d1 (pyStrip row.title ++ dashSpace (build_option_suffix row)) = none →
      (∀ v, dlookup d1 (enDashHyphen (puffsWordRemove (pyStrip row.title)) ++
          build_option_suffix row) = some v →
        find_match row d1 dn =
          some (v, enDashHyphen (puffsWordRemove (pyStrip row.title)) ++
            build_option_suffix row)) ∧
      (dlookup d1 (enDashHyphen (puffsWordRemove (pyStrip row.title)) ++
          build_option_suffix row) = none →
        ∀ v, dlookup d1 (enDashHyphen (puffsWordRemove (pyStrip row.title)) ++
          dashSpace (build_option_suffix row)) = some v →
        find_match row d1 dn =
          some (v, enDashHyphen (puffsWordRemove (pyStrip row.title)) ++
            dashSpace (build_option_suffix row)))) := by
  constructor
  · intro hs0
    simp [exactCandidates, hne, hs0]
  · intro hsfx h1 h2
    constructor
    · intro v hv
      simp [find_match, hne, hsfx, hpuffs, h1, h2, hv]
    · intro h3 v hv
      simp [find_match, hne, hsfx, hpuffs, h1, h2, h3, hv]

/-- C5 witness: with suffix `-Blue` and both direct keys missing, the
dash-joined puffs-stripped key resolves. -/
theorem c5_puffs_strategy_witness :
    find_match (VariantRow.mk "" "X 5000 Puffs" "Color" "Blue" "" "" "" "")
      [("X 5000-Blue", ⟨"s", "b"⟩)] [] = some (⟨"s", "b"⟩, "X 5000-Blue") :=
  ((c5_puffs_strategy_amended
      (VariantRow.mk "" "X 5000 Puffs" "Color" "Blue" "" "" "" "")
      [("X 5000-Blue", ⟨"s", "b"⟩)] [] (by decide) (by decide)).2
    (by decide) (by decide) (by decide)).1 ⟨"s", "b"⟩ (by decide)

/-! ## Claim C1 -/

/-- The handle-fallback tail of the spec resolver, as a standalone value. -/
def fallbackTail (row : VariantRow) (d1 dn : List (String × MRec)) :
    Option (MRec × String) :=
  match fallbackCandidate row with
  | none => none
  | some k5 =>
    match dlookup dn k5 with
    | none => none
    | some v =>
      match d1.find? (fun p => Csv.normalize_string p.1 == k5) with
      | some p => some (v, p.1)
      | none => none

theorem resolveSpec_eq (row : VariantRow) (d1 dn : List (String × MRec)) :
    resolveSpec row d1 dn =
      match firstHit (exactCandidates row) d1 with
      | some r => some r
      | none => fallbackTail row d1 dn := rfl

theorem firstHit_split : ∀ (ks : List String) (d : List (String × MRec)) (v : MRec)
    (k : String), firstHit ks d = some (v, k) →
    ∃ pre post, ks = pre ++ k :: post ∧ dlookup d k = some v ∧
      ∀ k' ∈ pre, dlookup d k' = none := by
  intro ks
  induction ks with
  | nil =>
    intro d v k h
    simp [firstHit] at h
  | cons k0 rest ih =>
    intro d v k h
    simp only [firstHit] at h
    cases hk0 : dlookup d k0 with
    | some v0 =>
      rw [hk0] at h
      simp only [Option.some.injEq, Prod.mk.injEq] at h
      obtain ⟨hv, hk⟩ := h
      subst hv hk
      exact ⟨[], rest, rfl, hk0, by intro k' hk'; simp at hk'⟩
    | none =>
      rw [hk0] at h
      obtain ⟨pre, post, heq, hkv, hpre⟩ := ih d v k h
      refine ⟨k0 :: pre, post, by rw [List.cons_append, heq], hkv, ?_⟩
      intro k' hk'
      rcases List.mem_cons.mp hk' with rfl | hk'
      · exact hk0
      · exact hpre k' hk'

theorem handleTail_eq (row : VariantRow) (d1 dn : List (String × MRec)) :
    (if pyStrip row.handle ≠ "" then
      match dlookup dn (Csv.normalize_string (dashToSpace (pyStrip row.handle) ++
          build_option_suffix row)) with
      | some v =>
        match d1.find? (fun p => Csv.normalize_string p.1 ==
            Csv.normalize_string (dashToSpace (pyStrip row.handle) ++
              build_option_suffix row)) with
        | some p => some (v, p.1)
        | none => none
      | none => none
    else none) = fallbackTail row d1 dn := by
  unfold fallbackTail fallbackCandidate
  by_cases hh : pyStrip row.handle = ""
  · simp [hh]
  · simp only [hh]
    simp
    rw [if_neg hh]
    cases dlookup dn (Csv.normalize_string (dashToSpace (pyStrip row.handle) ++
        build_option_suffix row)) <;> rfl

theorem find_match_eq_resolveSpec (row : VariantRow) (d1 dn : List (String × MRec)) :
    find_match row d1 dn = resolveSpec row d1 dn := by
  rw [resolveSpec_eq]
  by_cases ht : pyStrip row.title = ""
  · have hc : exactCandidates row = [] := by simp [exactCandidates, ht]
    rw [hc]
    show find_match row d1 dn = fallbackTail row d1 dn
    rw [← handleTail_eq row d1 dn]
    simp [find_match, ht]
  · cases hk1 : dlookup d1 (pyStrip row.title ++ build_option_suffix row) with
    | some v =>
      have hfh : firstHit (exactCandidates row) d1 =
          some (v, pyStrip row.title ++ build_option_suffix row) := by
        simp [exactCandidates, ht, firstHit, hk1]
      rw [hfh]
      simp [find_match, ht, hk1]
    | none =>
      by_cases hsfx : build_option_suffix row = ""
      · have hk1e : dlookup d1 (pyStrip row.title) = none := by
          rw [hsfx] at hk1
          simpa using hk1
        have hfh : firstHit (exactCandidates row) d1 = none := by
          simp [exactCandidates, ht, hsfx, firstHit, hk1e]
        rw [hfh]
        show find_match row d1 dn = fallbackTail row d1 dn
        rw [← handleTail_eq row d1 dn]
        simp [find_match, ht, hsfx, hk1e]
      · cases hk2 : dlookup d1 (pyStrip row.title ++ dashSpace (build_option_suffix row)) with
        | some v =>
          have hfh : firstHit (exactCandidates row) d1 =
              some (v, pyStrip row.title ++ dashSpace (build_option_suffix row)) := by
            simp [exactCandidates, ht, hsfx, firstHit, hk1, hk2]
          rw [hfh]
          simp [find_match, ht, hsfx, hk1, hk2]
        | none =>
          by_cases hpf : hasSub " Puffs".data (pyStrip row.title).data = true
          · cases hk3 : dlookup d1 (enDashHyphen (puffsWordRemove (pyStrip row.title)) ++
                build_option_suffix row) with
            | some v =>
              have hfh : firstHit (exactCandidates row) d1 =
                  some (v, enDashHyphen (puffsWordRemove (pyStrip row.title)) ++
                    build_option_suffix row) := by
                simp [exactCandidates, ht, hsfx, hpf, firstHit, hk1, hk2, hk3]
              rw [hfh]
              simp [find_match, ht, hsfx, hpf, hk1, hk2, hk3]
            | none =>
              cases hk4 : dlookup d1 (enDashHyphen (puffsWordRemove (pyStrip row.title)) ++
                  dashSpace (build_option_suffix row)) with
              | some v =>
                have hfh : firstHit (exactCandidates row) d1 =
                    some (v, enDashHyphen (puffsWordRemove (pyStrip row.title)) ++
                      dashSpace (build_option_suffix row)) := by
                  simp [exactCandidates, ht, hsfx, hpf, firstHit, hk1, hk2, hk3, hk4]
                rw [hfh]
                simp [find_match, ht, hsfx, hpf, hk1, hk2, hk3, hk4]
              | none =>
                have hfh : firstHit (exactCandidates row) d1 = none := by
                  simp [exactCandidates, ht, hsfx, hpf, firstHit, hk1, hk2, hk3, hk4]
                rw [hfh]
                show find_match row d1 dn = fallbackTail row d1 dn
                rw [← handleTail_eq row d1 dn]
                simp [find_match, ht, hsfx, hpf, hk1, hk2, hk3, hk4]
          · have hfh : firstHit (exactCandidates row) d1 = none := by
              simp [exactCandidates, ht, hsfx, hpf, firstHit, hk1, hk2]
            rw [hfh]
            show find_match row d1 dn = fallbackTail row d1 dn
            rw [← handleTail_eq row d1 dn]
            simp [find_match, ht, hsfx, hpf, hk1, hk2]

/-- C1 counterexample: the matched candidate need not sit at or before every
candidate that did not match — first-hit semantics only guarantees the
converse.  Row `Title="T"`, `Option="Blue"` builds candidates
`["T-Blue", "T - Blue"]`; against a table holding only `"T - Blue"` the
resolver returns the SECOND candidate while the first, earlier candidate
missed. -/
theorem c1_order_counterexample :
    exactCandidates (VariantRow.mk "" "T" "Color" "Blue" "" "" "" "") =
      ["T-Blue", "T - Blue"] ∧
    dlookup [("T - Blue", (⟨"s", "b"⟩ : MRec))] "T-Blue" = none ∧
    find_match (VariantRow.mk "" "T" "Color" "Blue" "" "" "" "")
      [("T - Blue", ⟨"s", "b"⟩)] [] = some (⟨"s", "b"⟩, "T - Blue") := by
  refine ⟨by decide, by decide, by decide⟩

/-- C1 amended: `find_match` is exactly the spec resolver — the ordered
candidate walk with first-hit semantics, then the normalized fallback — and
it is a total function into `Option` (Unmatched is `none`, never an
exception).  Whenever an exact candidate hits, every candidate strictly
BEFORE it missed (nothing is claimed about later candidates); and a
fallback hit returns the first master name whose normalization equals the
fallback key, not the candidate string itself. -/
theorem c1_resolver_first_hit (row : VariantRow) (d1 dn : List (String × MRec)) :
    find_match row d1 dn = resolveSpec row d1 dn ∧
    (∀ v k, firstHit (exactCandidates row) d1 = some (v, k) →
      ∃ pre post, exactCandidates row = pre ++ k :: post ∧
        dlookup d1 k = some v ∧ ∀ k' ∈ pre, dlookup d1 k' = none) ∧
    (∀ v k, find_match row d1 dn = some (v, k) →
      firstHit (exactCandidates row) d1 = some (v, k) ∨
      (firstHit (exactCandidates row) d1 = none ∧
        ∃ k5, fallbackCandidate row = some k5 ∧ dlookup dn k5 = some v ∧
          ∃ p, d1.find? (fun q => Csv.normalize_string q.1 == k5) = some p ∧
            k = p.1)) := by
  refine ⟨find_match_eq_resolveSpec row d1 dn,
    fun v k h => firstHit_split _ d1 v k h, ?_⟩
  intro v k h
  rw [find_match_eq_resolveSpec row d1 dn, resolveSpec_eq] at h
  cases hfh : firstHit (exactCandidates row) d1 with
  | some r =>
    rw [hfh] at h
    simp only [] at h
    left
    exact h
  | none =>
    rw [hfh] at h
    simp only [] at h
    right
    refine ⟨rfl, ?_⟩
    unfold fallbackTail at h
    cases hfc : fallbackCandidate row with
    | none =>
      rw [hfc] at h
      simp at h
    | some k5 =>
      rw [hfc] at h
      simp only [] at h
      cases hdn : dlookup dn k5 with
      | none =>
        rw [hdn] at h
        simp at h
      | some v' =>
        rw [hdn] at h
        simp only [] at h
        cases hf : d1.find? (fun q => Csv.normalize_string q.1 == k5) with
        | none =>
          rw [hf] at h
          simp at h
        | some p =>
          rw [hf] at h
          simp only [Option.some.injEq, Prod.mk.injEq] at h
          exact ⟨k5, rfl, by rw [hdn, h.1], p, hf, h.2.symm⟩

/-- C1 witness: the resolver/spec-resolver agreement at the counterexample
row and table. -/
theorem c1_resolver_first_hit_witness :
    find_match (VariantRow.mk "" "T" "Color" "Blue" "" "" "" "")
      [("T - Blue", ⟨"s", "b"⟩)] [] =
      resolveSpec (VariantRow.mk "" "T" "Color" "Blue" "" "" "" "")
        [("T - Blue", ⟨"s", "b"⟩)] [] :=
  (c1_resolver_first_hit (VariantRow.mk "" "T" "Color" "Blue" "" "" "" "")
    [("T - Blue", ⟨"s", "b"⟩)] []).1
